import Mathlib

/-!
Shallow embedding of the pymbus wireless M-Bus / M-Bus decoder core
(protocol.py, telegram.py, utils/encryption.py), together with theorems
settling the specification claims about it.

Bytes are modelled as natural numbers; Python byte strings as
`List Nat`.  All definitions follow the Python source; the AES block
cipher itself comes from an external library (PyCryptodome) and is
therefore a parameter of the CBC model.
-/

/-- M-Bus CRC inner round of `MBusProtocol.calculate_crc`: if the least
significant bit is set, shift right and XOR with the reversed polynomial
0x8C, otherwise just shift right. -/
def crcRound (crc : Nat) : Nat :=
  if crc % 2 = 1 then (crc / 2) ^^^ 0x8C else crc / 2

/-- One byte step of `MBusProtocol.calculate_crc`: XOR the byte into the
accumulator, then run 8 rounds. -/
def crcByte (crc b : Nat) : Nat :=
  (List.range 8).foldl (fun acc _ => crcRound acc) (crc ^^^ b)

/-- Embedding of `MBusProtocol.calculate_crc`: fold the byte step over the
data with the accumulator starting at 0. -/
def calculate_crc (data : List Nat) : Nat :=
  data.foldl crcByte 0

/-- Embedding of `MBusProtocol.check_crc`: at least 3 bytes, the CRC of all
bytes but the last must equal the last byte. -/
def check_crc (data : List Nat) : Bool :=
  if data.length < 3 then false
  else calculate_crc data.dropLast == data.getLastD 0

/-- Embedding of `MBusProtocol.decode_manufacturer` (the identical
`Telegram._decode_manufacturer` is the same function): three 5-bit groups,
most significant first, each shifted into the ASCII range by adding 64. -/
def decode_manufacturer (code : Nat) : String :=
  String.mk [Char.ofNat (((code >>> 10) &&& 0x1F) + 64),
             Char.ofNat (((code >>> 5) &&& 0x1F) + 64),
             Char.ofNat ((code &&& 0x1F) + 64)]

/-- Embedding of `MBusProtocol.encode_manufacturer`: requires exactly three
characters (else the Python code raises ValueError, modelled as `none`) and
packs `ord(c) - 64` as 5+5+5 bits.  The Python subtraction is on `int`;
this embedding is used on decoded codes, whose characters are all ≥ 64, so
the truncated `Nat` subtraction agrees with the source there. -/
def encode_manufacturer (code : String) : Option Nat :=
  match code.toList with
  | [c1, c2, c3] =>
    some ((((c1.toNat - 64) <<< 10) ||| ((c2.toNat - 64) <<< 5)) ||| (c3.toNat - 64))
  | _ => none

/-- Lowercase hex digit character for a nibble, as produced by the Python
format `02x`. -/
def hexDigit (n : Nat) : Char :=
  if n < 10 then Char.ofNat (48 + n) else Char.ofNat (87 + n)

/-- Two lowercase hex digits of a byte (Python format `02x`; bytes are
always below 256, larger values are reduced). -/
def byteToHex (b : Nat) : List Char :=
  [hexDigit (b / 16 % 16), hexDigit (b % 16)]

/-- Hex rendering of a byte list in reversed order, as in the Python
expression joining `02x` renderings over `reversed(id_bytes)`. -/
def bytesToHexRev (bs : List Nat) : String :=
  String.mk (bs.reverse.foldr (fun b acc => byteToHex b ++ acc) [])

/-- Value of one hex character, `none` if the character is not a hex
digit (mirrors `binascii.unhexlify` failure). -/
def hexVal (c : Char) : Option Nat :=
  if 48 ≤ c.toNat ∧ c.toNat ≤ 57 then some (c.toNat - 48)
  else if 97 ≤ c.toNat ∧ c.toNat ≤ 102 then some (c.toNat - 87)
  else if 65 ≤ c.toNat ∧ c.toNat ≤ 70 then some (c.toNat - 55)
  else none

/-- Hex pair parsing as in `binascii.unhexlify`: fails on odd length or a
non-hex character. -/
def parseHexPairs : List Char → Option (List Nat)
  | [] => some []
  | [_] => none
  | c1 :: c2 :: rest =>
    match hexVal c1, hexVal c2, parseHexPairs rest with
    | some h, some l, some bs => some ((h * 16 + l) :: bs)
    | _, _, _ => none

/-- Embedding of `binascii.unhexlify` on a string. -/
def unhexlify (s : String) : Option (List Nat) :=
  parseHexPairs s.toList

/-- Space removal as in the Python idiom replacing a space with the empty
string. -/
def stripSpaces (s : String) : String :=
  String.mk (s.toList.filter (fun c => c ≠ ' '))

/-- M-Bus frame types of the `MBusFrameType` enumeration. -/
inductive MBusFrameType
  | SINGLE_CHAR
  | SHORT
  | CONTROL
  | LONG
  | WMBUS_APL
  | WMBUS_NWL
  deriving DecidableEq, Repr

/-- Embedding of the `MBusFrame` object fields set by `MBusFrame.parse`. -/
structure MBusFrame where
  frame_type : MBusFrameType
  length : Nat
  control : Nat
  address : Nat
  control_information : Nat
  data : List Nat
  checksum : Nat
  manufacturer : Option String
  identification : Option String
  version : Option Nat
  device_type : Option Nat
  deriving DecidableEq, Repr

/-- Fresh frame with the field defaults of the `MBusFrame` constructor. -/
def initFrame : MBusFrame :=
  { frame_type := .LONG, length := 0, control := 0, address := 0,
    control_information := 0, data := [], checksum := 0,
    manufacturer := none, identification := none,
    version := none, device_type := none }

/-- Embedding of `MBusFrame.parse`.  Branches follow the Python source in
order: empty input, single-character ACK, too-short input, short frame
(start byte 0x10, CRC computed over the first four bytes including the
start byte), control/long frame (start byte 0x68), wireless APL frame
(start byte 0x44..0x4F).  List indices mirror the Python slices; all
accesses are guarded by the same length checks as the source. -/
def MBusFrame.parse (data : List Nat) : Option MBusFrame :=
  if data.length < 1 then none
  else if data.length = 1 ∧ data.getD 0 0 = 0xE5 then
    some { initFrame with frame_type := .SINGLE_CHAR }
  else if data.length < 5 then none
  else if data.getD 0 0 = 0x10 then
    if check_crc (data.take 4) then
      some { initFrame with
          frame_type := .SHORT,
          control := data.getD 1 0,
          address := data.getD 2 0,
          checksum := data.getD 3 0 }
    else none
  else if data.getD 0 0 = 0x68 then
    if data.length < 9 then none
    else if data.getD 1 0 ≠ data.getD 2 0 then none
    else if data.getD 3 0 ≠ 0x68 then none
    else if data.length < data.getD 1 0 + 6 then none
    else if check_crc ((data.drop 4).take (data.getD 1 0 + 1)) then
      some { initFrame with
          frame_type := if data.getD 1 0 = 3 then .CONTROL else .LONG,
          length := data.getD 1 0,
          control := data.getD 4 0,
          address := data.getD 5 0,
          control_information := data.getD 6 0,
          data := (data.drop 7).take (data.getD 1 0 - 3),
          checksum := data.getD (4 + data.getD 1 0) 0 }
    else none
  else if 0x44 ≤ data.getD 0 0 ∧ data.getD 0 0 ≤ 0x4F then
    if data.length < 10 then none
    else
      some { initFrame with
          frame_type := .WMBUS_APL,
          length := data.getD 0 0,
          control := data.getD 1 0,
          manufacturer := some (decode_manufacturer ((data.getD 3 0 <<< 8) ||| data.getD 2 0)),
          identification := some (bytesToHexRev ((data.drop 4).take 4)),
          version := some (data.getD 8 0),
          device_type := some (data.getD 9 0),
          control_information := if 10 < data.length then data.getD 10 0 else 0,
          data := if 11 < data.length then data.drop 11 else [] }
  else none

/-- Embedding of `TelegramHeader` as built by `Telegram._parse_header`. -/
structure TelegramHeader where
  length : Nat
  control : Nat
  manufacturer : String
  meter_id : String
  version : Nat
  meter_type : Nat
  is_encrypted : Bool
  deriving DecidableEq, Repr

/-- Embedding of the `Telegram` object state relevant to the claims: the
raw byte buffer and the parsed header. -/
structure Telegram where
  raw_data : List Nat
  header : Option TelegramHeader
  deriving DecidableEq, Repr

/-- Embedding of `Telegram._parse_header`: requires at least 10 bytes, then
reads L, C, the little-endian M-field, the reversed-hex A-field, version
and device type; `is_encrypted` is the C-field masked with 0x05. -/
def telegramHeader (raw : List Nat) : Option TelegramHeader :=
  if raw.length < 10 then none
  else
    some { length := raw.getD 0 0,
           control := raw.getD 1 0,
           manufacturer := decode_manufacturer (raw.getD 2 0 + 256 * raw.getD 3 0),
           meter_id := bytesToHexRev ((raw.drop 4).take 4),
           version := raw.getD 8 0,
           meter_type := raw.getD 9 0,
           is_encrypted := raw.getD 1 0 &&& 0x05 ≠ 0 }

/-- Embedding of the `Telegram` constructor on a byte buffer: store the
raw bytes and parse the header immediately (an empty buffer skips the
header parse, which the length check subsumes). -/
def Telegram.ofBytes (raw : List Nat) : Telegram :=
  { raw_data := raw, header := telegramHeader raw }

/-- Embedding of `generate_iv` (utils/encryption.py): 16 bytes, the first
3 from the manufacturer code characters, the next 8 from the meter id
(hex-decoded if possible, else character codes), remainder zero. -/
def generate_iv (manufacturer meter_id : String) : List Nat :=
  let mb := (manufacturer.toList.take 3).map Char.toNat
  let idb :=
    match unhexlify (stripSpaces meter_id) with
    | some bs => bs.take 8
    | none => (meter_id.toList.take 8).map Char.toNat
  (mb ++ List.replicate (3 - mb.length) 0) ++
    (idb ++ List.replicate (8 - idb.length) 0) ++
    List.replicate 5 0

/-- Split a byte list into AES blocks of 16 bytes, the last block keeping
whatever remains; the fuel argument only bounds the recursion and the list
length is always enough fuel, every step consuming at least one element. -/
def chunk16Fuel : Nat → List Nat → List (List Nat)
  | 0, _ => []
  | _, [] => []
  | fuel + 1, a :: rest => ((a :: rest).take 16) :: chunk16Fuel fuel ((a :: rest).drop 16)

/-- Split a byte list into AES blocks of 16 bytes. -/
def chunk16 (l : List Nat) : List (List Nat) :=
  chunk16Fuel l.length l

/-- CBC-mode decryption chaining over an abstract block decryption
function `D` (the external AES primitive): each plaintext block is the
block decryption XORed with the previous ciphertext block, the IV first. -/
def cbcDecrypt (D : List Nat → List Nat → List Nat) (key iv data : List Nat) : List Nat :=
  let blocks := chunk16 data
  (List.zipWith (fun c p => List.zipWith (fun x y => x ^^^ y) (D key c) p)
    blocks (iv :: blocks)).flatten

/-- PKCS#7 unpadding as performed by the external `Crypto.Util.Padding.unpad`
with a 16-byte block: fails on empty or unaligned input, on a padding
length outside 1..16, or when the padding bytes do not all equal it. -/
def unpadPkcs7 (data : List Nat) : Option (List Nat) :=
  if data.length = 0 then none
  else if data.length % 16 ≠ 0 then none
  else
    let n := data.getLastD 0
    if n < 1 ∨ n > 16 then none
    else if (data.drop (data.length - n)).all (fun b => b == n) then
      some (data.take (data.length - n))
    else none

/-- Chaining register of a stateful pycryptodome CBC object after one
decrypt call: the last ciphertext block fed to it, or still the IV when no
data was fed.  (In context the data length is always a multiple of 16.) -/
def cbcState (iv data : List Nat) : List Nat :=
  if data.length = 0 then iv else data.drop (data.length - 16)

/-- Embedding of `decrypt_aes_cbc` (utils/encryption.py), parameterised by
the external AES block decryption `D`: reject an empty key, a key that is
not 32 hex digits, or data that is not a multiple of the AES block size
(the external cipher raises there); otherwise CBC-decrypt under the IV
from `generate_iv` and strip PKCS#7 padding when it is valid.  When the
padding is invalid the source calls `cipher.decrypt(data)` a second time
on the same stateful CBC object, which by then chains from the last
ciphertext block of the first pass, so the fallback result is a CBC
decryption whose first block is XORed with the last ciphertext block
instead of the IV. -/
def decrypt_aes_cbc (D : List Nat → List Nat → List Nat)
    (data : List Nat) (key manufacturer meter_id : String) : Option (List Nat) :=
  if key = "" then none
  else
    match unhexlify (stripSpaces key) with
    | none => none
    | some kb =>
      if kb.length ≠ 16 then none
      else if data.length % 16 ≠ 0 then none
      else
        let iv := generate_iv manufacturer meter_id
        match unpadPkcs7 (cbcDecrypt D kb iv data) with
        | some u => some u
        | none => some (cbcDecrypt D kb (cbcState iv data) data)

/-- Embedding of `Telegram.decrypt`: success without change when there is
no header or it is not marked encrypted; failure on an empty key; on a
decryption error the telegram is unchanged; on success the bytes after
offset 10 are replaced by the plaintext. -/
def Telegram.decrypt (D : List Nat → List Nat → List Nat)
    (t : Telegram) (key : String) : Bool × Telegram :=
  match t.header with
  | none => (true, t)
  | some h =>
    if h.is_encrypted = false then (true, t)
    else if key = "" then (false, t)
    else
      match decrypt_aes_cbc D (t.raw_data.drop 10) key h.manufacturer h.meter_id with
      | none => (false, t)
      | some dec => (true, { t with raw_data := t.raw_data.take 10 ++ dec })

/-- Embedding of an `MBusDataRecord` as constructed by
`MBusProtocol.parse_data_records` (the stored `dif` is the low nibble and
the stored `vif` has the extension bit cleared, as in the source). -/
structure MBusDataRecord where
  dif : Nat
  vif : Nat
  value : List Nat
  storage_number : Nat
  tariff : Nat
  subunit : Nat
  function : Nat
  dife_data : List Nat
  vife_data : List Nat
  deriving DecidableEq, Repr

/-- Embedding of `MBusProtocol._get_data_length`: the DIF-to-length table,
with 0 for any key not in the dictionary. -/
def get_data_length (dif : Nat) : Nat :=
  if dif = 0x00 then 0
  else if dif = 0x01 then 1
  else if dif = 0x02 then 2
  else if dif = 0x03 then 3
  else if dif = 0x04 then 4
  else if dif = 0x05 then 4
  else if dif = 0x06 then 6
  else if dif = 0x07 then 8
  else if dif = 0x08 then 1
  else if dif = 0x0B then 1
  else if dif = 0x0C then 0
  else if dif = 0x10 then 1
  else if dif = 0x11 then 2
  else if dif = 0x12 then 3
  else if dif = 0x13 then 4
  else if dif = 0x14 then 4
  else if dif = 0x15 then 6
  else if dif = 0x16 then 8
  else if dif = 0x17 then 1
  else 0

/-- Extension-byte chain consumption shared by the DIFE and VIFE loops of
`parse_data_records`: bytes are consumed until one with the 0x80 bit clear
has been consumed or the data ends; the first component is the consumed
chain, the second the remainder. -/
def takeChain : List Nat → List Nat × List Nat
  | [] => ([], [])
  | b :: rest =>
    if b &&& 0x80 ≠ 0 then
      let p := takeChain rest
      (b :: p.1, p.2)
    else ([b], rest)

/-- Storage number accumulated from a DIFE chain: 4 bits per DIFE, chain
position j contributing at bit offset 4·j. -/
def storageOf (difes : List Nat) : Nat :=
  difes.enum.foldl (fun acc p => acc ||| ((p.2 &&& 0x0F) <<< (p.1 * 4))) 0

/-- Tariff accumulated from a DIFE chain: 2 bits per DIFE at offset 2·j. -/
def tariffOf (difes : List Nat) : Nat :=
  difes.enum.foldl (fun acc p => acc ||| (((p.2 &&& 0x30) >>> 4) <<< (p.1 * 2))) 0

/-- Subunit (device) flag from a DIFE chain: 1 when any DIFE has bit 0x40. -/
def subunitOf (difes : List Nat) : Nat :=
  if difes.any (fun d => d &&& 0x40 ≠ 0) then 1 else 0

/-- Extension split shared by the DIFE and VIFE handling of one
`parse_data_records` iteration: when the extension bit of `b` is set the
chain is consumed from `rest`, otherwise nothing is consumed. -/
def extSplit (b : Nat) (rest : List Nat) : List Nat × List Nat :=
  if b &&& 0x80 ≠ 0 then takeChain rest else ([], rest)

/-- Value length for one record: the variable-length codes read a length
prefix when a byte remains, every other code uses the DIF table. -/
def valueLength (dif_value : Nat) (r3 : List Nat) : Nat :=
  if (dif_value = 0x17 ∨ dif_value = 0x0B) ∧ r3 ≠ [] then r3.headD 0 + 1
  else get_data_length dif_value

/-- Value-and-record phase of one `parse_data_records` iteration, after the
DIFE and VIFE chains have been consumed: stop without a record when the
value would overrun the data, otherwise build the record and return it with
the remaining bytes. -/
def parseStepValue (dif : Nat) (dife_bytes : List Nat) (vif : Nat)
    (vife_bytes r3 : List Nat) : Option (MBusDataRecord × List Nat) :=
  if r3.length < valueLength (dif &&& 0x0F) r3 then none
  else
    some ({ dif := dif &&& 0x0F,
            vif := vif &&& 0x7F,
            value := r3.take (valueLength (dif &&& 0x0F) r3),
            storage_number := storageOf dife_bytes,
            tariff := tariffOf dife_bytes,
            subunit := subunitOf dife_bytes,
            function := (dif &&& 0x30) >>> 4,
            dife_data := dife_bytes,
            vife_data := vife_bytes },
          r3.drop (valueLength (dif &&& 0x0F) r3))

/-- VIF phase of one `parse_data_records` iteration: stop without a record
when the data ended before a VIF byte (this also catches a truncated DIFE
chain), otherwise consume the VIFE chain and continue with the value. -/
def parseStepVif (dif : Nat) (dife_bytes r1 : List Nat) :
    Option (MBusDataRecord × List Nat) :=
  match r1 with
  | [] => none
  | vif :: r2 => parseStepValue dif dife_bytes vif (extSplit vif r2).1 (extSplit vif r2).2

/-- One full iteration of the `parse_data_records` loop: read the DIF,
consume the DIFE chain when the DIF extension bit is set, then the VIF
phase.  `none` is a loop break without a record. -/
def parseStep : List Nat → Option (MBusDataRecord × List Nat)
  | [] => none
  | dif :: rest => parseStepVif dif (extSplit dif rest).1 (extSplit dif rest).2

/-- Remainder bound for `takeChain`. -/
theorem takeChain_snd_length_le (l : List Nat) : (takeChain l).2.length ≤ l.length := by
  induction l with
  | nil => simp [takeChain]
  | cons b rest ih =>
    simp only [takeChain]
    split
    · simpa using Nat.le_succ_of_le ih
    · simp

/-- Remainder bound for `extSplit`. -/
theorem extSplit_snd_length_le (b : Nat) (l : List Nat) :
    (extSplit b l).2.length ≤ l.length := by
  unfold extSplit
  split
  · exact takeChain_snd_length_le l
  · simp

/-- Remainder bound for the value phase. -/
theorem parseStepValue_length {dif : Nat} {db : List Nat} {vif : Nat}
    {vb r3 : List Nat} {r : MBusDataRecord} {rem : List Nat}
    (h : parseStepValue dif db vif vb r3 = some (r, rem)) :
    rem.length ≤ r3.length := by
  unfold parseStepValue at h
  split at h
  · exact absurd h (by simp)
  · have h2 := congrArg Prod.snd (Option.some.inj h)
    simp only at h2
    rw [← h2, List.length_drop]
    omega

/-- Every emitted record consumes at least the DIF and VIF bytes, so the
remainder shrinks by at least two. -/
theorem parseStep_length {l : List Nat} {r : MBusDataRecord} {rem : List Nat}
    (h : parseStep l = some (r, rem)) : rem.length + 2 ≤ l.length := by
  match l with
  | [] => simp [parseStep] at h
  | dif :: rest =>
    simp only [parseStep] at h
    have hdclen : (extSplit dif rest).2.length ≤ rest.length :=
      extSplit_snd_length_le dif rest
    unfold parseStepVif at h
    match hr1 : (extSplit dif rest).2, h with
    | vif :: r2, h =>
      rw [hr1] at hdclen
      have hvclen : (extSplit vif r2).2.length ≤ r2.length :=
        extSplit_snd_length_le vif r2
      have := parseStepValue_length h
      simp at hdclen
      simp only [List.length_cons]
      omega

/-- Iteration of the `parse_data_records` loop with explicit fuel; the
data length is always enough fuel because every step consumes at least one
byte. -/
def parseRecordsFuel : Nat → List Nat → List MBusDataRecord
  | 0, _ => []
  | fuel + 1, data =>
    match parseStep data with
    | none => []
    | some (r, rem) => r :: parseRecordsFuel fuel rem

/-- Embedding of `MBusProtocol.parse_data_records`: iterate the step until
the data ends or a step breaks; records accumulate in payload order. -/
def parse_data_records (data : List Nat) : List MBusDataRecord :=
  parseRecordsFuel data.length data

/-- With enough fuel the fuel amount is irrelevant. -/
theorem parseRecordsFuel_irrel :
    ∀ (f1 f2 : Nat) (data : List Nat), data.length ≤ f1 → data.length ≤ f2 →
      parseRecordsFuel f1 data = parseRecordsFuel f2 data := by
  intro f1
  induction f1 with
  | zero =>
    intro f2 data h1 _
    have hd : data = [] := List.eq_nil_of_length_eq_zero (by omega)
    subst hd
    cases f2 <;> rfl
  | succ f1 ih =>
    intro f2 data h1 h2
    match hs : parseStep data with
    | none =>
      cases data with
      | nil => cases f2 <;> rfl
      | cons a rest =>
        cases f2 with
        | zero => simp at h2
        | succ f2 => simp only [parseRecordsFuel, hs]
    | some (r, rem) =>
      have hlen := parseStep_length hs
      cases f2 with
      | zero => omega
      | succ f2 =>
        simp only [parseRecordsFuel, hs]
        rw [ih f2 rem (by omega) (by omega)]

/-- Unfolding equation of `parse_data_records`: one loop iteration. -/
theorem parse_data_records_eq (data : List Nat) :
    parse_data_records data =
      match parseStep data with
      | none => []
      | some (r, rem) => r :: parse_data_records rem := by
  unfold parse_data_records
  cases data with
  | nil => rfl
  | cons a rest =>
    match hs : parseStep (a :: rest) with
    | none => simp only [List.length_cons, parseRecordsFuel, hs]
    | some (r, rem) =>
      have hlen := parseStep_length hs
      simp only [List.length_cons, parseRecordsFuel, hs]
      rw [parseRecordsFuel_irrel rest.length rem.length rem (by simp at hlen; omega) le_rfl]

/-- Embedding of `MBusDataRecord._decode_bcd`: take `digits` nibbles from
the least significant end of the integer, clamping an invalid nibble (>9)
to 9; the source accumulates with a growing power-of-ten multiplier, which
this right fold reproduces. -/
def decode_bcd (value : Nat) : Nat → Nat
  | 0 => 0
  | d + 1 =>
    (if value &&& 0x0F > 9 then 9 else value &&& 0x0F) + 10 * decode_bcd (value >>> 4) d

/-- Big-endian integer of a byte string, as produced by the Python idiom
`int(value.hex(), 16)` (the claims use it only on non-empty values). -/
def bytesToInt (bs : List Nat) : Nat :=
  bs.foldl (fun acc b => acc * 256 + b) 0

/-- Embedding of the `DIF.INT_BCD32` branch of `MBusDataRecord._parse_value`:
convert the value bytes to the big-endian integer of their hex rendering
and decode 8 BCD digits from it. -/
def parse_value_int_bcd32 (value : List Nat) : Nat :=
  decode_bcd (bytesToInt value) 8

/-- Embedding of the BCD branch of `Telegram._decode_value`: byte i
contributes its high nibble at decimal position 2i+1 and its low nibble at
position 2i, bytes in little-endian order. -/
def telegram_decode_bcd : List Nat → Nat
  | [] => 0
  | b :: r => ((b >>> 4) &&& 0x0F) * 10 + (b &&& 0x0F) + 100 * telegram_decode_bcd r

/-- Modelled from the spec: the little-endian nibble-pair BCD encoding of
`n` over `k` bytes (the repository has no BCD encoder; spec section 8
scenario 5 fixes this byte layout, 12345678 becoming 78 56 34 12). -/
def encodeBcdLE : Nat → Nat → List Nat
  | 0, _ => []
  | k + 1, n => (((n / 10) % 10) * 16 + n % 10) :: encodeBcdLE k (n / 100)

/-- Characters below 96 survive the `Char.ofNat` / `Char.toNat` round
trip (all manufacturer-code characters are in 64..95). -/
theorem char_toNat_ofNat : ∀ n < 96, (Char.ofNat n).toNat = n := by decide

/-- Reassembling the three 5-bit groups of a value below 2^15 gives the
value back. -/
theorem manufacturer_pack_unpack (m : Nat) (h : m < 32768) :
    ((((m >>> 10) &&& 0x1F) <<< 10) ||| (((m >>> 5) &&& 0x1F) <<< 5)) ||| (m &&& 0x1F) = m := by
  apply Nat.eq_of_testBit_eq
  intro i
  have h31 : (31 : Nat) = 2 ^ 5 - 1 := by norm_num
  simp only [Nat.testBit_or, Nat.testBit_shiftLeft, Nat.testBit_and,
    Nat.testBit_shiftRight, h31, Nat.testBit_two_pow_sub_one]
  rcases lt_or_le i 5 with h5 | h5
  · have e1 : decide (10 ≤ i) = false := by simp; omega
    have e2 : decide (5 ≤ i) = false := by simp; omega
    have e3 : decide (i < 5) = true := by simp; omega
    simp [e1, e2, e3]
  · rcases lt_or_le i 10 with h10 | h10
    · have e1 : decide (10 ≤ i) = false := by simp; omega
      have e2 : decide (5 ≤ i) = true := by simp; omega
      have e3 : decide (i < 5) = false := by simp; omega
      have e4 : decide (i - 5 < 5) = true := by simp; omega
      have e5 : 5 + (i - 5) = i := by omega
      simp [e1, e2, e3, e4, e5]
    · rcases lt_or_le i 15 with h15 | h15
      · have e1 : decide (10 ≤ i) = true := by simp; omega
        have e2 : decide (i - 10 < 5) = true := by simp; omega
        have e3 : decide (i - 5 < 5) = false := by simp; omega
        have e4 : decide (i < 5) = false := by simp; omega
        have e5 : 10 + (i - 10) = i := by omega
        simp [e1, e2, e3, e4, e5]
      · have e1 : decide (i - 10 < 5) = false := by simp; omega
        have e3 : decide (i - 5 < 5) = false := by simp; omega
        have e4 : decide (i < 5) = false := by simp; omega
        have e6 : m.testBit i = false := by
          apply Nat.testBit_lt_two_pow
          calc m < 32768 := h
            _ ≤ 2 ^ i := by
              have h2 : (32768 : Nat) = 2 ^ 15 := by norm_num
              rw [h2]
              exact Nat.pow_le_pow_right (by norm_num) h15
        simp [e1, e3, e4, e6]

/-- Claim C5: appending the one-byte CRC of a byte string to it and
recomputing the CRC yields zero, for every byte string. -/
theorem claim_C5_theorem (data : List Nat) :
    calculate_crc (data ++ [calculate_crc data]) = 0 := by
  unfold calculate_crc
  simp only [List.foldl_append, List.foldl_cons, List.foldl_nil]
  unfold crcByte
  rw [Nat.xor_self]
  rfl

/-- Claim C1, counterexample: the 5-byte short frame 10 40 05 45 16 of the
claim is rejected by `MBusFrame.parse`, because `check_crc` compares the
shift-XOR CRC of the bytes 10 40 05 (which is 0xEE) with 0x45. -/
theorem claim_C1_counterexample :
    MBusFrame.parse [0x10, 0x40, 0x05, 0x45, 0x16] = none := by decide

/-- Claim C1, amended: the CRC byte that `MBusFrame.parse` accepts for a
short frame with C = 0x40 and A = 0x05 is `calculate_crc` over the start
byte 0x10, C and A, namely 0xEE, not 0x45; with that checksum the frame
parses to a SHORT frame carrying control 0x40 and address 0x05. -/
theorem claim_C1_amended :
    MBusFrame.parse [0x10, 0x40, 0x05, 0xEE, 0x16]
      = some { initFrame with
          frame_type := .SHORT,
          control := 0x40,
          address := 0x05,
          checksum := 0xEE }
    ∧ calculate_crc [0x10, 0x40, 0x05] = 0xEE
    ∧ calculate_crc [0x10, 0x40, 0x05] ≠ 0x45 := by decide

/-- Claim C2, counterexample: 0xFFFF is a 16-bit value whose three decoded
letters all lie in the range A..underscore, yet packing the decoded code
gives 0x7FFF, not 0xFFFF, because bit 15 is not examined by the decoder. -/
theorem claim_C2_counterexample :
    (∀ c ∈ (decode_manufacturer 0xFFFF).toList, 'A' ≤ c ∧ c ≤ '_')
    ∧ encode_manufacturer (decode_manufacturer 0xFFFF) ≠ some 0xFFFF := by decide

/-- Claim C2, amended: for every value below 2^15 whose three decoded
letters lie in the range A..underscore, encoding the decoded manufacturer
code gives the value back. -/
theorem claim_C2_amended (m : Nat) (hm : m < 0x8000)
    (hletters : ∀ c ∈ (decode_manufacturer m).toList, 'A' ≤ c ∧ c ≤ '_') :
    encode_manufacturer (decode_manufacturer m) = some m := by
  have b1 : ((m >>> 10) &&& 0x1F) + 64 ≤ 95 := by
    have := Nat.and_le_right (n := m >>> 10) (m := 0x1F); omega
  have b2 : ((m >>> 5) &&& 0x1F) + 64 ≤ 95 := by
    have := Nat.and_le_right (n := m >>> 5) (m := 0x1F); omega
  have b3 : (m &&& 0x1F) + 64 ≤ 95 := by
    have := Nat.and_le_right (n := m) (m := 0x1F); omega
  show some _ = some m
  rw [char_toNat_ofNat _ (by omega), char_toNat_ofNat _ (by omega),
    char_toNat_ofNat _ (by omega)]
  simp only [Nat.add_sub_cancel]
  exact congrArg some (manufacturer_pack_unpack m hm)

/-- Claim C2, witness: the spec scenario value 0x2C2D (code KAM) satisfies
the amended hypotheses and round-trips. -/
theorem claim_C2_witness :
    0x2C2D < 0x8000
    ∧ (∀ c ∈ (decode_manufacturer 0x2C2D).toList, 'A' ≤ c ∧ c ≤ '_')
    ∧ encode_manufacturer (decode_manufacturer 0x2C2D) = some 0x2C2D :=
  ⟨by decide, by decide, claim_C2_amended 0x2C2D (by decide) (by decide)⟩

/-- Little-endian nibble-pair decoding inverts the spec encoding for any
value that fits in the encoded digits. -/
theorem telegram_decode_encode_bcd (k : Nat) :
    ∀ n, n < 10 ^ (2 * k) → telegram_decode_bcd (encodeBcdLE k n) = n := by
  induction k with
  | zero =>
    intro n hn
    have h0 : n = 0 := by simpa using hn
    subst h0
    rfl
  | succ k ih =>
    intro n hn
    have h16 : (2 : Nat) ^ 4 = 16 := by norm_num
    have hb1 : (((n / 10) % 10) * 16 + n % 10) >>> 4 = (n / 10) % 10 := by
      rw [Nat.shiftRight_eq_div_pow, h16]
      omega
    have hb2 : ((n / 10) % 10) &&& 0x0F = (n / 10) % 10 := by
      have h15 : (0x0F : Nat) = 2 ^ 4 - 1 := by norm_num
      rw [h15, Nat.and_pow_two_sub_one_eq_mod, h16]
      omega
    have hb3 : (((n / 10) % 10) * 16 + n % 10) &&& 0x0F = n % 10 := by
      have h15 : (0x0F : Nat) = 2 ^ 4 - 1 := by norm_num
      rw [h15, Nat.and_pow_two_sub_one_eq_mod, h16]
      omega
    have hlt : n / 100 < 10 ^ (2 * k) := by
      have hpow : 10 ^ (2 * (k + 1)) = 10 ^ (2 * k) * 100 := by ring
      rw [hpow] at hn
      omega
    simp only [encodeBcdLE, telegram_decode_bcd, hb1, hb2, hb3, ih (n / 100) hlt]
    omega

/-- Claim C4: the BCD path of `MBusDataRecord._parse_value` decodes the
bytes 78 56 34 12 as 78563412 — it reads the byte string big-endian via
the integer of its hex rendering — while the BCD branch of
`Telegram._decode_value` decodes the same bytes little-endian as 12345678,
which is the behaviour the spec states; the latter inverts the spec
encoding for every value in range. -/
theorem claim_C4_theorem :
    parse_value_int_bcd32 [0x78, 0x56, 0x34, 0x12] = 78563412
    ∧ telegram_decode_bcd [0x78, 0x56, 0x34, 0x12] = 12345678
    ∧ ∀ k n, n < 10 ^ (2 * k) → telegram_decode_bcd (encodeBcdLE k n) = n :=
  ⟨by decide, by decide, fun k => telegram_decode_encode_bcd k⟩

/-- Claim C4, witness: the round-trip part of the theorem at the spec
scenario value 12345678 over 4 bytes. -/
theorem claim_C4_witness :
    12345678 < 10 ^ (2 * 4)
    ∧ telegram_decode_bcd (encodeBcdLE 4 12345678) = 12345678 :=
  ⟨by norm_num, claim_C4_theorem.2.2 4 12345678 (by norm_num)⟩

/-- Claim C6, counterexample: a 4-byte short M-Bus frame whose CRC check
passes is nevertheless rejected, because `MBusFrame.parse` requires at
least 5 bytes; the claim asks for acceptance from 4 bytes on. -/
theorem claim_C6_counterexample :
    MBusFrame.parse [0x10, 0x40, 0x05, 0xEE] = none
    ∧ [(0x10 : Nat), 0x40, 0x05, 0xEE].length = 4
    ∧ check_crc [0x10, 0x40, 0x05, 0xEE] = true := by decide

/-- Claim C6, amended: a telegram header exists exactly when the buffer has
at least 10 bytes, and `MBusFrame.parse` succeeds exactly when the buffer
is the single ACK byte, a short frame of at least 5 bytes with start byte
0x10 and passing CRC, a long frame of at least 9 bytes with matching
length copies, both 0x68 start bytes, enough data and passing CRC, or a
wireless APL frame of at least 10 bytes with first byte 0x44..0x4F. -/
theorem claim_C6_amended (data : List Nat) :
    ((Telegram.ofBytes data).header.isSome ↔ 10 ≤ data.length)
    ∧ ((MBusFrame.parse data).isSome ↔
        ((data.length = 1 ∧ data.getD 0 0 = 0xE5)
         ∨ (5 ≤ data.length ∧ data.getD 0 0 = 0x10 ∧ check_crc (data.take 4) = true)
         ∨ (9 ≤ data.length ∧ data.getD 0 0 = 0x68 ∧ data.getD 1 0 = data.getD 2 0
            ∧ data.getD 3 0 = 0x68 ∧ data.getD 1 0 + 6 ≤ data.length
            ∧ check_crc ((data.drop 4).take (data.getD 1 0 + 1)) = true)
         ∨ (0x44 ≤ data.getD 0 0 ∧ data.getD 0 0 ≤ 0x4F ∧ 10 ≤ data.length))) := by
  constructor
  · unfold Telegram.ofBytes telegramHeader
    split
    · simp; omega
    · simp; omega
  · unfold MBusFrame.parse
    by_cases h1 : data.length < 1
    · rw [if_pos h1]
      simp only [Option.isSome_none, Bool.false_eq_true, false_iff]
      rintro (⟨hA, _⟩ | ⟨hA, _⟩ | ⟨hA, _⟩ | ⟨_, _, hA⟩) <;> omega
    · rw [if_neg h1]
      by_cases h2 : data.length = 1 ∧ data.getD 0 0 = 0xE5
      · rw [if_pos h2]
        simp only [Option.isSome_some, true_iff]
        exact Or.inl h2
      · rw [if_neg h2]
        by_cases h3 : data.length < 5
        · rw [if_pos h3]
          simp only [Option.isSome_none, Bool.false_eq_true, false_iff]
          rintro (hA | ⟨hA, _⟩ | ⟨hA, _⟩ | ⟨_, _, hA⟩)
          · exact h2 hA
          all_goals omega
        · rw [if_neg h3]
          by_cases h4 : data.getD 0 0 = 0x10
          · rw [if_pos h4]
            by_cases h5 : check_crc (data.take 4) = true
            · rw [if_pos h5]
              simp only [Option.isSome_some, true_iff]
              exact Or.inr (Or.inl ⟨by omega, h4, h5⟩)
            · rw [if_neg h5]
              simp only [Option.isSome_none, Bool.false_eq_true, false_iff]
              rintro (⟨hA, _⟩ | ⟨_, _, hC⟩ | ⟨_, hB, _⟩ | ⟨hA, _, _⟩)
              · omega
              · exact h5 hC
              · omega
              · omega
          · rw [if_neg h4]
            by_cases h6 : data.getD 0 0 = 0x68
            · rw [if_pos h6]
              by_cases h7 : data.length < 9
              · rw [if_pos h7]
                simp only [Option.isSome_none, Bool.false_eq_true, false_iff]
                rintro (⟨hA, _⟩ | ⟨_, hB, _⟩ | ⟨hA, _⟩ | ⟨hA, _, _⟩) <;> omega
              · rw [if_neg h7]
                by_cases h8 : data.getD 1 0 ≠ data.getD 2 0
                · rw [if_pos h8]
                  simp only [Option.isSome_none, Bool.false_eq_true, false_iff]
                  rintro (⟨hA, _⟩ | ⟨_, hB, _⟩ | ⟨_, _, hC, _⟩ | ⟨hA, _, _⟩) <;> omega
                · rw [if_neg h8]
                  by_cases h9 : data.getD 3 0 ≠ 0x68
                  · rw [if_pos h9]
                    simp only [Option.isSome_none, Bool.false_eq_true, false_iff]
                    rintro (⟨hA, _⟩ | ⟨_, hB, _⟩ | ⟨_, _, _, hD, _⟩ | ⟨hA, _, _⟩) <;> omega
                  · rw [if_neg h9]
                    by_cases h10 : data.length < data.getD 1 0 + 6
                    · rw [if_pos h10]
                      simp only [Option.isSome_none, Bool.false_eq_true, false_iff]
                      rintro (⟨hA, _⟩ | ⟨_, hB, _⟩ | ⟨_, _, _, _, hE, _⟩ | ⟨hA, _, _⟩) <;> omega
                    · rw [if_neg h10]
                      by_cases h11 : check_crc ((data.drop 4).take (data.getD 1 0 + 1)) = true
                      · rw [if_pos h11]
                        simp only [Option.isSome_some, true_iff]
                        refine Or.inr (Or.inr (Or.inl ⟨by omega, h6, by omega, by omega, by omega, h11⟩))
                      · rw [if_neg h11]
                        simp only [Option.isSome_none, Bool.false_eq_true, false_iff]
                        rintro (⟨hA, _⟩ | ⟨_, hB, _⟩ | ⟨_, _, _, _, _, hF⟩ | ⟨hA, _, _⟩)
                        · omega
                        · omega
                        · exact h11 hF
                        · omega
            · rw [if_neg h6]
              by_cases h12 : 0x44 ≤ data.getD 0 0 ∧ data.getD 0 0 ≤ 0x4F
              · rw [if_pos h12]
                by_cases h13 : data.length < 10
                · rw [if_pos h13]
                  simp only [Option.isSome_none, Bool.false_eq_true, false_iff]
                  rintro (⟨hA, _⟩ | ⟨_, hB, _⟩ | ⟨_, hB, _⟩ | ⟨_, _, hA⟩) <;> omega
                · rw [if_neg h13]
                  simp only [Option.isSome_some, true_iff]
                  exact Or.inr (Or.inr (Or.inr ⟨h12.1, h12.2, by omega⟩))
              · rw [if_neg h12]
                simp only [Option.isSome_none, Bool.false_eq_true, false_iff]
                rintro (hA | ⟨_, hB, _⟩ | ⟨_, hB, _⟩ | ⟨hB, hC, _⟩)
                · exact h2 hA
                · exact h4 hB
                · exact h6 hB
                · exact h12 ⟨hB, hC⟩

/-- Concrete 10-byte wireless header whose control byte 0x10 has the
encryption bits clear. -/
def rawPlain : List Nat := [26, 0x10, 0x3A, 0x63, 4, 3, 2, 1, 0x2A, 0x07]

/-- Header parsed from `rawPlain`. -/
def hdrPlain : TelegramHeader :=
  { length := 26, control := 0x10, manufacturer := "XYZ", meter_id := "01020304",
    version := 0x2A, meter_type := 7, is_encrypted := false }

/-- Concrete encrypted telegram: manufacturer XYZ, identification
01020304, version 0x2A, device type 0x07, control 0x05 (encrypted), and a
16-byte all-zero ciphertext after the 10-byte header. -/
def rawXYZ : List Nat :=
  [26, 0x05, 0x3A, 0x63, 4, 3, 2, 1, 0x2A, 0x07] ++ List.replicate 16 0

/-- Header parsed from `rawXYZ` (and from `rawXYZ32`). -/
def hdrXYZ : TelegramHeader :=
  { length := 26, control := 5, manufacturer := "XYZ", meter_id := "01020304",
    version := 0x2A, meter_type := 7, is_encrypted := true }

/-- The 32-byte variant of the claim scenario: its 22 ciphertext bytes are
not a multiple of the AES block size. -/
def rawXYZ32 : List Nat :=
  [26, 0x05, 0x3A, 0x63, 4, 3, 2, 1, 0x2A, 0x07] ++ List.replicate 22 0

/-- A well-formed 32-hex-digit key of zeros. -/
def keyZeros : String := "00000000000000000000000000000000"

/-- The IV the code actually synthesises for manufacturer XYZ and
identification 01020304: the three ASCII letters, then the identification
hex bytes in string order, then zero fill. -/
def ivXYZ : List Nat := [88, 89, 90, 1, 2, 3, 4, 0, 0, 0, 0, 0, 0, 0, 0, 0]

/-- Claim C3, counterexample: the IV the code synthesises for manufacturer
XYZ and identification 01020304 is not the claimed
X Y Z 04 03 02 01 v t 00 00 00 00 00 00 00; consequently, with the
identity block cipher, decrypting the concrete telegram `rawXYZ` does not
produce the plaintext the claim describes; and on the claim scenario of a
32-byte frame (22 ciphertext bytes) the decrypt step fails outright
because the ciphertext is not a multiple of the AES block size. -/
theorem claim_C3_counterexample :
    generate_iv "XYZ" "01020304"
      ≠ [88, 89, 90, 4, 3, 2, 1, 0x2A, 0x07, 0, 0, 0, 0, 0, 0, 0]
    ∧ (Telegram.decrypt (fun _ c => c) (Telegram.ofBytes rawXYZ) keyZeros).2.raw_data
      ≠ rawXYZ.take 10 ++
        cbcDecrypt (fun _ c => c) (List.replicate 16 0)
          [88, 89, 90, 4, 3, 2, 1, 0x2A, 0x07, 0, 0, 0, 0, 0, 0, 0] (rawXYZ.drop 10)
    ∧ (Telegram.decrypt (fun _ c => c) (Telegram.ofBytes rawXYZ32) keyZeros).1 = false := by
  decide

/-- Claim C7: `Telegram.decrypt` returns success and leaves the telegram
unchanged when no header is marked encrypted; on an encrypted header it
fails leaving the bytes unchanged when the key is empty, and likewise
whenever the AES-CBC decryption step fails. -/
theorem claim_C7_theorem :
    (∀ (D : List Nat → List Nat → List Nat) (t : Telegram) (key : String),
      (∀ h, t.header = some h → h.is_encrypted = false) →
      Telegram.decrypt D t key = (true, t))
    ∧ (∀ (D : List Nat → List Nat → List Nat) (t : Telegram) (key : String)
        (h : TelegramHeader), t.header = some h → h.is_encrypted = true → key = "" →
      Telegram.decrypt D t key = (false, t))
    ∧ (∀ (D : List Nat → List Nat → List Nat) (t : Telegram) (key : String)
        (h : TelegramHeader), t.header = some h → h.is_encrypted = true →
      decrypt_aes_cbc D (t.raw_data.drop 10) key h.manufacturer h.meter_id = none →
      Telegram.decrypt D t key = (false, t)) := by
  refine ⟨?_, ?_, ?_⟩
  · intro D t key hno
    unfold Telegram.decrypt
    rcases hht : t.header with _ | h
    · rfl
    · simp [hno h hht]
  · intro D t key h hht henc hkey
    unfold Telegram.decrypt
    rw [hht]
    simp [henc, hkey]
  · intro D t key h hht henc hdec
    unfold Telegram.decrypt
    rw [hht]
    by_cases hk : key = ""
    · simp [henc, hk]
    · simp [henc, hk, hdec]

/-- Claim C7, witness: the three parts of the theorem at concrete
telegrams — a plaintext telegram with any key, an encrypted telegram with
the empty key, and an encrypted telegram with the invalid key 00. -/
theorem claim_C7_witness :
    Telegram.decrypt (fun _ c => c) (Telegram.ofBytes rawPlain) keyZeros
      = (true, Telegram.ofBytes rawPlain)
    ∧ Telegram.decrypt (fun _ c => c) (Telegram.ofBytes rawXYZ) ""
      = (false, Telegram.ofBytes rawXYZ)
    ∧ Telegram.decrypt (fun _ c => c) (Telegram.ofBytes rawXYZ) "00"
      = (false, Telegram.ofBytes rawXYZ) := by
  refine ⟨claim_C7_theorem.1 _ _ _ ?_,
          claim_C7_theorem.2.1 _ _ _ hdrXYZ (by decide) (by decide) rfl,
          claim_C7_theorem.2.2 _ _ _ hdrXYZ (by decide) (by decide) (by decide)⟩
  intro h hh
  have h2 : some hdrPlain = some h := by
    rw [← hh]; decide
  exact (Option.some.inj h2) ▸ (by decide : hdrPlain.is_encrypted = false)

/-- Claim C3, amended: for an encrypted telegram with manufacturer XYZ and
identification 01020304, a valid 16-byte key, and ciphertext a multiple of
the AES block size, the decrypt step replaces the bytes after offset 10
with the PKCS#7-unpadded AES-CBC decryption of those bytes under the IV
X Y Z 01 02 03 04 followed by nine zero bytes — the identification bytes
enter in string order and the version and device-type bytes are not part
of the IV — when the padding of that decryption is valid; when it is
invalid, the replacement is a second decryption pass of the stateful
cipher, a CBC decryption chained from the last ciphertext block instead
of the IV. -/
theorem claim_C3_amended (D : List Nat → List Nat → List Nat) (raw : List Nat)
    (key : String) (kb : List Nat) (h : TelegramHeader)
    (hh : telegramHeader raw = some h)
    (hm : h.manufacturer = "XYZ") (hi : h.meter_id = "01020304")
    (he : h.is_encrypted = true)
    (hk0 : key ≠ "") (hkb : unhexlify (stripSpaces key) = some kb)
    (hlen : kb.length = 16) (hmod : (raw.drop 10).length % 16 = 0) :
    Telegram.decrypt D (Telegram.ofBytes raw) key
      = (true,
         { raw_data :=
             raw.take 10 ++
               ((unpadPkcs7 (cbcDecrypt D kb ivXYZ (raw.drop 10))).getD
                 (cbcDecrypt D kb (cbcState ivXYZ (raw.drop 10)) (raw.drop 10))),
           header := some h })
    ∧ generate_iv "XYZ" "01020304" = ivXYZ := by
  have hiv : generate_iv "XYZ" "01020304" = ivXYZ := by decide
  refine ⟨?_, hiv⟩
  have hd : decrypt_aes_cbc D (raw.drop 10) key h.manufacturer h.meter_id
      = some ((unpadPkcs7 (cbcDecrypt D kb ivXYZ (raw.drop 10))).getD
          (cbcDecrypt D kb (cbcState ivXYZ (raw.drop 10)) (raw.drop 10))) := by
    unfold decrypt_aes_cbc
    rw [if_neg hk0, hkb]
    simp only [hlen, hmod]
    rw [hm, hi, hiv]
    cases hu : unpadPkcs7 (cbcDecrypt D kb ivXYZ (raw.drop 10)) with
    | none => simp [hu]
    | some u => simp [hu]
  unfold Telegram.decrypt
  have hh2 : (Telegram.ofBytes raw).header = some h := hh
  rw [hh2]
  simp only [he]
  rw [if_neg (by simp)]
  rw [if_neg hk0]
  have hraw : (Telegram.ofBytes raw).raw_data = raw := rfl
  rw [hraw, hd]

/-- Claim C3, witness: the amended theorem at the concrete telegram
`rawXYZ`, the all-zero key and the identity block cipher. -/
theorem claim_C3_witness :
    Telegram.decrypt (fun _ c => c) (Telegram.ofBytes rawXYZ) keyZeros
      = (true,
         { raw_data :=
             rawXYZ.take 10 ++
               ((unpadPkcs7 (cbcDecrypt (fun _ c => c) (List.replicate 16 0) ivXYZ
                   (rawXYZ.drop 10))).getD
                 (cbcDecrypt (fun _ c => c) (List.replicate 16 0)
                   (cbcState ivXYZ (rawXYZ.drop 10)) (rawXYZ.drop 10))),
           header := some hdrXYZ })
    ∧ generate_iv "XYZ" "01020304" = ivXYZ :=
  claim_C3_amended (fun _ c => c) rawXYZ keyZeros (List.replicate 16 0) hdrXYZ
    (by decide) (by decide) (by decide) (by decide) (by decide) (by decide)
    (by decide) (by decide)

/-- Claim C8, counterexample: on the payload 00 80 the VIF byte 0x80
requests an extension that the data truncates, yet a record IS emitted for
that position (the zero-length DIF 0x00 value passes the bounds check), so
the claim that no record is emitted on a truncated VIFE chain is false. -/
theorem claim_C8_counterexample :
    parse_data_records [0x00, 0x80] ≠ []
    ∧ parse_data_records [0x00, 0x80]
      = [{ dif := 0, vif := 0, value := [], storage_number := 0, tariff := 0,
           subunit := 0, function := 0, dife_data := [], vife_data := [] }] := by
  decide

/-- Claim C8, amended: a truncated DIFE chain (or a missing VIF) stops
parsing with no record, and a declared fixed value length exceeding the
remaining bytes stops parsing with no record; but a VIFE extension
truncated by the end of data does not discard the record — when the value
length is zero the record is still emitted with an empty value. -/
theorem claim_C8_amended :
    (∀ (dif : Nat) (rest : List Nat), dif &&& 0x80 ≠ 0 → (takeChain rest).2 = [] →
      parse_data_records (dif :: rest) = [])
    ∧ (∀ (dif vif : Nat) (r2 : List Nat), dif &&& 0x80 = 0 → vif &&& 0x80 = 0 →
        ¬(dif &&& 0x0F = 0x17 ∨ dif &&& 0x0F = 0x0B) →
        r2.length < get_data_length (dif &&& 0x0F) →
        parse_data_records (dif :: vif :: r2) = [])
    ∧ (∀ dif vif : Nat, dif &&& 0x80 = 0 → vif &&& 0x80 ≠ 0 →
        get_data_length (dif &&& 0x0F) = 0 →
        parse_data_records [dif, vif]
          = [{ dif := dif &&& 0x0F, vif := vif &&& 0x7F, value := [],
               storage_number := 0, tariff := 0, subunit := 0,
               function := (dif &&& 0x30) >>> 4, dife_data := [], vife_data := [] }]) := by
  refine ⟨?_, ?_, ?_⟩
  · intro dif rest hdif hchain
    rw [parse_data_records_eq]
    simp [parseStep, extSplit, hdif, hchain, parseStepVif]
  · intro dif vif r2 hdif hvif hvar hlen
    rw [parse_data_records_eq]
    have hs : parseStep (dif :: vif :: r2) = none := by
      simp only [parseStep, extSplit, hdif]
      simp only [ne_eq, not_true_eq_false, if_neg, ite_false]
      simp [parseStepVif, extSplit, hvif, parseStepValue, valueLength, hvar, hlen]
    rw [hs]
  · intro dif vif hdif hvif hlen0
    rw [parse_data_records_eq]
    have hs : parseStep [dif, vif]
        = some ({ dif := dif &&& 0x0F, vif := vif &&& 0x7F, value := [],
                  storage_number := 0, tariff := 0, subunit := 0,
                  function := (dif &&& 0x30) >>> 4, dife_data := [], vife_data := [] },
                []) := by
      simp [parseStep, extSplit, hdif, hvif, parseStepVif, parseStepValue, valueLength,
        hlen0, takeChain, storageOf, tariffOf, subunitOf]
    rw [hs]
    rfl

/-- Claim C8, witness: the three parts of the amended theorem at concrete
payloads 80 80 (truncated DIFE chain), 02 13 01 (a 2-byte value with only
one byte left) and 00 80 (truncated VIFE chain, record emitted). -/
theorem claim_C8_witness :
    ((0x80 : Nat) &&& 0x80 ≠ 0 ∧ (takeChain [0x80]).2 = []
      ∧ parse_data_records [0x80, 0x80] = [])
    ∧ ((0x02 : Nat) &&& 0x80 = 0 ∧ (0x13 : Nat) &&& 0x80 = 0
      ∧ ¬((0x02 : Nat) &&& 0x0F = 0x17 ∨ (0x02 : Nat) &&& 0x0F = 0x0B)
      ∧ [(0x01 : Nat)].length < get_data_length ((0x02 : Nat) &&& 0x0F)
      ∧ parse_data_records [0x02, 0x13, 0x01] = [])
    ∧ ((0x00 : Nat) &&& 0x80 = 0 ∧ (0x80 : Nat) &&& 0x80 ≠ 0
      ∧ get_data_length ((0x00 : Nat) &&& 0x0F) = 0
      ∧ parse_data_records [0x00, 0x80]
        = [{ dif := 0x00 &&& 0x0F, vif := 0x80 &&& 0x7F, value := [],
             storage_number := 0, tariff := 0, subunit := 0,
             function := ((0x00 : Nat) &&& 0x30) >>> 4, dife_data := [], vife_data := [] }]) :=
  ⟨⟨by decide, by decide, claim_C8_amended.1 0x80 [0x80] (by decide) (by decide)⟩,
   ⟨by decide, by decide, by decide, by decide,
    claim_C8_amended.2.1 0x02 0x13 [0x01] (by decide) (by decide) (by decide) (by decide)⟩,
   ⟨by decide, by decide, by decide,
    claim_C8_amended.2.2 0x00 0x80 (by decide) (by decide) (by decide)⟩⟩

/-- Claim C9, counterexample: the filler DIF 0x2F is not skipped — on the
payload 2F 13 the parser consumes 0x13 as a VIF and emits a record, while
skipping 0x2F would leave the lone DIF 0x13 and produce no record. -/
theorem claim_C9_counterexample :
    parse_data_records [0x2F, 0x13] ≠ parse_data_records [0x13]
    ∧ parse_data_records [0x2F, 0x13]
      = [{ dif := 0x0F, vif := 0x13, value := [], storage_number := 0, tariff := 0,
           subunit := 0, function := 2, dife_data := [], vife_data := [] }]
    ∧ parse_data_records [0x13] = [] := by decide

/-- Claim C9, amended: `parse_data_records` treats the idle filler 0x2F
as an ordinary DIF with data field 0xF (length 0) and function code 2: the
following byte is consumed as a VIF, a record with an empty value is
emitted, and parsing continues after that VIF byte, not directly after the
0x2F byte. -/
theorem claim_C9_amended (v : Nat) (rest : List Nat) (hv : v &&& 0x80 = 0) :
    parse_data_records (0x2F :: v :: rest)
      = { dif := 0x0F, vif := v &&& 0x7F, value := [], storage_number := 0,
          tariff := 0, subunit := 0, function := 2,
          dife_data := [], vife_data := ([] : List Nat) }
        :: parse_data_records rest := by
  rw [parse_data_records_eq]
  have hs : parseStep (0x2F :: v :: rest)
      = some ({ dif := 0x0F, vif := v &&& 0x7F, value := [], storage_number := 0,
                tariff := 0, subunit := 0, function := 2,
                dife_data := [], vife_data := [] }, rest) := by
    have e1 : ((0x2F : Nat) &&& 0x80) = 0 := by decide
    have e2 : ((0x2F : Nat) &&& 0x0F) = 0x0F := by decide
    have e3 : (((0x2F : Nat) &&& 0x30) >>> 4) = 2 := by decide
    have e4 : get_data_length 0x0F = 0 := by decide
    simp only [parseStep, extSplit, e1, hv, ne_eq, not_true_eq_false, ite_false,
      parseStepVif, parseStepValue, valueLength, e2, e4]
    have e5 : ¬(((0x0F : Nat) = 0x17 ∨ (0x0F : Nat) = 0x0B) ∧ rest ≠ []) := by
      rintro ⟨h1, -⟩
      revert h1
      decide
    simp only [if_neg e5, Nat.not_lt_zero, ite_false, if_neg, List.take_zero,
      List.drop_zero, e3, storageOf, tariffOf, subunitOf, List.enum_nil,
      List.foldl_nil, List.any_nil, Bool.false_eq_true, Nat.lt_irrefl]
  rw [hs]

/-- Claim C9, witness: the amended theorem at the payload 2F 13 01. -/
theorem claim_C9_witness :
    (0x13 : Nat) &&& 0x80 = 0
    ∧ parse_data_records [0x2F, 0x13, 0x01]
      = { dif := 0x0F, vif := (0x13 : Nat) &&& 0x7F, value := [], storage_number := 0,
          tariff := 0, subunit := 0, function := 2,
          dife_data := [], vife_data := ([] : List Nat) }
        :: parse_data_records [0x01] :=
  ⟨by decide, claim_C9_amended 0x13 [0x01] (by decide)⟩

/-- Fuel-style induction for the record-count bound. -/
theorem parse_records_length_aux :
    ∀ (n : Nat) (data : List Nat), data.length ≤ n →
      (parse_data_records data).length ≤ data.length := by
  intro n
  induction n with
  | zero =>
    intro data h
    have hd : data = [] := List.eq_nil_of_length_eq_zero (by omega)
    subst hd
    rfl
  | succ n ih =>
    intro data h
    rw [parse_data_records_eq]
    match hs : parseStep data with
    | none => simp
    | some (r, rem) =>
      have h2 := parseStep_length hs
      have h3 := ih rem (by omega)
      simp only [List.length_cons]
      omega

/-- Claim C10: record parsing is a total function (the embedding is
structurally recursive, every loop iteration consuming at least one byte),
and the number of records — hence of completed loop iterations — is
bounded by the payload length, for every input. -/
theorem claim_C10_theorem (data : List Nat) :
    (parse_data_records data).length ≤ data.length :=
  parse_records_length_aux data.length data le_rfl
